import Mathlib

/-!
Verification of the memuri memory-admission core.

The Memory Gate and Memory Orchestrator (`memuri/services/gating.py`,
`memuri/services/memory.py`) are not part of the visible sources; they are
modelled from the specification (sections 4.1, 4.2, 6).  The provider
factories are embedded from `src/memuri/factory.py`.
-/

/-- Characters stripped by trimming (spec: "trimmed content length"). -/
def isWhite (c : Char) : Bool :=
  c == ' ' || c == '\t' || c == '\n' || c == '\r'

/-- Strip leading and trailing whitespace from a character list. -/
def trimChars (l : List Char) : List Char :=
  ((l.dropWhile isWhite).reverse.dropWhile isWhite).reverse

/-- Length of the content after trimming surrounding whitespace. -/
def trimmedLen (s : String) : Nat :=
  (trimChars s.data).length

/-- Lower-case a character list (case-insensitive matching). -/
def lowerChars (l : List Char) : List Char :=
  l.map Char.toLower

/-- Test `charsStartWith needle hay`: does `hay` begin with `needle`? -/
def charsStartWith : List Char → List Char → Bool
  | [], _ => true
  | _ :: _, [] => false
  | n :: ns, h :: hs => n == h && charsStartWith ns hs

/-- Test `charsContain needle hay`: does `needle` occur as a contiguous
sublist of `hay`? -/
def charsContain (needle : List Char) : List Char → Bool
  | [] => needle.isEmpty
  | h :: hs => charsStartWith needle (h :: hs) || charsContain needle hs

/-- Case-insensitive substring test: does `content` contain `phrase`? -/
def containsCI (content phrase : String) : Bool :=
  charsContain (lowerChars phrase.data) (lowerChars content.data)

/-- Normalized equality used for the skip-word rule: lower-cased, trimmed
exact match. -/
def skipMatch (content w : String) : Bool :=
  trimChars (lowerChars content.data) == trimChars (lowerChars w.data)

/-- An embedding vector, modelled over the rationals. -/
abbrev Emb := List ℚ

/-- Dot product of two embedding vectors. -/
def dot (a b : Emb) : ℚ :=
  (List.zipWith (fun x y => x * y) a b).sum

/-- Modelled from the spec: decidable test for "cosine similarity of `a`
and `b` is at least `t`".  Avoids square roots by comparing squares:
for nonzero vectors, cos(a,b) ≥ t iff dot ≥ t·√(‖a‖²‖b‖²). -/
def cosSimGE (a b : Emb) (t : ℚ) : Bool :=
  let d := dot a b
  let na := dot a a
  let nb := dot b b
  if na = 0 || nb = 0 then false
  else if 0 < t then decide (0 ≤ d) && decide (t ^ 2 * (na * nb) ≤ d ^ 2)
  else decide (0 ≤ d) || decide (d ^ 2 ≤ t ^ 2 * (na * nb))

/-- A classification: mapping of category name to confidence score. -/
abbrev Classification := List (String × ℚ)

/-- Highest confidence value of a classification (0 when empty). -/
def maxConf (m : Classification) : ℚ :=
  (m.map Prod.snd).foldr max 0

/-- Modelled from the spec (section 6): configuration surface consumed by
the Memory Gate. -/
structure GateConfig where
  similarity_threshold : ℚ
  confidence_threshold : ℚ
  min_content_length : Nat
  skip_words : List String
  keep_phrases : List String
  max_recent_embeddings : Nat
deriving DecidableEq

/-- Reason tags of a gate decision. -/
inductive GateReason where
  | FORCED_KEEP
  | TOO_SHORT
  | SKIP_PHRASE
  | DUPLICATE
  | LOW_CONFIDENCE
  | CLASSIFIED_KEEP
  | DEFAULT_KEEP
deriving DecidableEq, Repr

/-- A gate decision: accept/reject plus a reason tag. -/
structure GateDecision where
  accept : Bool
  reason : GateReason
deriving DecidableEq, Repr

/-- Modelled from the spec (section 4.1, side effect): append the accepted
embedding to the cache; if this exceeds `maxN`, evict the oldest entry. -/
def pushCache (maxN : Nat) (cache : List Emb) (e : Emb) : List Emb :=
  let c := cache ++ [e]
  if maxN < c.length then c.tail else c

/-- Modelled from the spec (section 4.1): `MemoryGate.evaluate`, absent
from the visible sources.  Rule cascade in fixed order: forced keep, too
short, skip phrase, duplicate, low confidence / classified keep, default
accept.  Returns the decision together with the updated
recent-embedding cache; only acceptances append to the cache. -/
def evaluate (cfg : GateConfig) (cache : List Emb) (content : String)
    (embedding : Emb) (classification : Option Classification) :
    GateDecision × List Emb :=
  if cfg.keep_phrases.any (fun p => containsCI content p) then
    (⟨true, .FORCED_KEEP⟩, pushCache cfg.max_recent_embeddings cache embedding)
  else if trimmedLen content < cfg.min_content_length then
    (⟨false, .TOO_SHORT⟩, cache)
  else if cfg.skip_words.any (fun w => skipMatch content w) then
    (⟨false, .SKIP_PHRASE⟩, cache)
  else if cache.any (fun e => cosSimGE embedding e cfg.similarity_threshold) then
    (⟨false, .DUPLICATE⟩, cache)
  else
    match classification with
    | some m =>
        if maxConf m < cfg.confidence_threshold then
          (⟨false, .LOW_CONFIDENCE⟩, cache)
        else
          (⟨true, .CLASSIFIED_KEEP⟩,
            pushCache cfg.max_recent_embeddings cache embedding)
    | none =>
        (⟨true, .DEFAULT_KEEP⟩,
          pushCache cfg.max_recent_embeddings cache embedding)

/-- Claim C1: for every content containing a configured keep-phrase
(case-insensitive substring match), `evaluate` returns accept with reason
`FORCED_KEEP`, for every cache, embedding and classification — including
when the classifier confidence is 0 and the trimmed length is below
`min_content_length`. -/
theorem evaluate_forced_keep (cfg : GateConfig) (cache : List Emb)
    (content : String) (embedding : Emb)
    (classification : Option Classification) (p : String)
    (hp : p ∈ cfg.keep_phrases) (hc : containsCI content p = true) :
    (evaluate cfg cache content embedding classification).1 =
      ⟨true, .FORCED_KEEP⟩ := by
  have h : cfg.keep_phrases.any (fun q => containsCI content q) = true :=
    List.any_eq_true.mpr ⟨p, hp, hc⟩
  simp [evaluate, h]

/-- Witness for C1: content "hi!" contains keep-phrase "hi", classifier
confidence is 0, and trimmed length 3 is below the threshold 10. -/
theorem evaluate_forced_keep_witness :
    (evaluate ⟨9/10, 3/10, 10, ["ok"], ["hi"], 50⟩ [] "hi!" [1, 0]
        (some [("personal", 0)])).1 = ⟨true, .FORCED_KEEP⟩ ∧
      trimmedLen "hi!" < 10 ∧ maxConf [("personal", 0)] = 0 :=
  ⟨evaluate_forced_keep _ _ _ _ _ "hi" (by decide) (by decide),
    by decide, by decide⟩

/-- Claim C2: for every content whose trimmed length is below
`min_content_length` and which contains no configured keep-phrase,
`evaluate` returns reject with reason `TOO_SHORT` (cache unchanged), for
every embedding and classification; the rule fires before the skip-word
check. -/
theorem evaluate_too_short (cfg : GateConfig) (cache : List Emb)
    (content : String) (embedding : Emb)
    (classification : Option Classification)
    (hk : cfg.keep_phrases.any (fun p => containsCI content p) = false)
    (hs : trimmedLen content < cfg.min_content_length) :
    evaluate cfg cache content embedding classification =
      (⟨false, .TOO_SHORT⟩, cache) := by
  simp [evaluate, hk, hs]

/-- Witness for C2: with `min_content_length` 10 and skip word "ok", the
input "ok" is rejected as `TOO_SHORT`, even though the skip-word rule
would also have matched it. -/
theorem evaluate_too_short_witness :
    evaluate ⟨9/10, 3/10, 10, ["ok"], [], 50⟩ [] "ok" [1, 0] none =
        (⟨false, .TOO_SHORT⟩, []) ∧ skipMatch "ok" "ok" = true :=
  ⟨evaluate_too_short _ _ _ _ _ (by decide) (by decide), by decide⟩

/-- Helper: the cache returned by `evaluate` is either the old cache or the
old cache with the candidate embedding pushed. -/
theorem evaluate_cache_cases (cfg : GateConfig) (cache : List Emb)
    (content : String) (embedding : Emb)
    (classification : Option Classification) :
    (evaluate cfg cache content embedding classification).2 = cache ∨
      (evaluate cfg cache content embedding classification).2 =
        pushCache cfg.max_recent_embeddings cache embedding := by
  unfold evaluate
  split
  · exact Or.inr rfl
  · split
    · exact Or.inl rfl
    · split
      · exact Or.inl rfl
      · split
        · exact Or.inl rfl
        · split
          · split
            · exact Or.inl rfl
            · exact Or.inr rfl
          · exact Or.inr rfl

/-- Helper: an accepting `evaluate` call pushes the candidate embedding
onto the cache. -/
theorem evaluate_accept_cache (cfg : GateConfig) (cache : List Emb)
    (content : String) (embedding : Emb)
    (classification : Option Classification)
    (h : (evaluate cfg cache content embedding classification).1.accept =
      true) :
    (evaluate cfg cache content embedding classification).2 =
      pushCache cfg.max_recent_embeddings cache embedding := by
  by_cases h1 : cfg.keep_phrases.any (fun p => containsCI content p) = true
  · simp [evaluate, h1]
  · by_cases h2 : trimmedLen content < cfg.min_content_length
    · simp [evaluate, h1, h2] at h
    · by_cases h3 : cfg.skip_words.any (fun w => skipMatch content w) = true
      · simp [evaluate, h1, h2, h3] at h
      · by_cases h4 :
          cache.any (fun e =>
            cosSimGE embedding e cfg.similarity_threshold) = true
        · simp [evaluate, h1, h2, h3, h4] at h
        · match classification with
          | none => simp [evaluate, h1, h2, h3, h4]
          | some m =>
            by_cases h5 : maxConf m < cfg.confidence_threshold
            · simp [evaluate, h1, h2, h3, h4, h5] at h
            · simp [evaluate, h1, h2, h3, h4, h5]

/-- Helper: pushing an embedding keeps it in the cache, provided the
capacity is positive. -/
theorem mem_pushCache_self (maxN : Nat) (cache : List Emb) (e : Emb)
    (h : 0 < maxN) : e ∈ pushCache maxN cache e := by
  simp only [pushCache]
  split
  · next hlt =>
    match cache with
    | [] => simp at hlt; omega
    | y :: ys => simp
  · simp

/-- Helper: when the keep/length/skip rules pass and some cache entry is
similar enough, `evaluate` rejects as a duplicate without touching the
cache. -/
theorem evaluate_dup_rule (cfg : GateConfig) (cache : List Emb)
    (content : String) (embedding : Emb)
    (classification : Option Classification)
    (hk : cfg.keep_phrases.any (fun p => containsCI content p) = false)
    (hlen : ¬ trimmedLen content < cfg.min_content_length)
    (hskip : cfg.skip_words.any (fun w => skipMatch content w) = false)
    (hdup : cache.any (fun e =>
      cosSimGE embedding e cfg.similarity_threshold) = true) :
    evaluate cfg cache content embedding classification =
      (⟨false, .DUPLICATE⟩, cache) := by
  simp [evaluate, hk, hlen, hskip, hdup]

/-- Claim C3: if embedding `A` was just accepted (with positive cache
capacity) and `B` has cosine similarity at least `similarity_threshold`
with `A`, then an immediately following `evaluate` with `B` and content
passing the keep/length/skip rules returns reject with reason
`DUPLICATE`. -/
theorem evaluate_duplicate (cfg : GateConfig) (cache : List Emb)
    (cA cB : String) (A B : Emb) (cls1 cls2 : Option Classification)
    (hmax : 0 < cfg.max_recent_embeddings)
    (hacc : (evaluate cfg cache cA A cls1).1.accept = true)
    (hk : cfg.keep_phrases.any (fun p => containsCI cB p) = false)
    (hlen : ¬ trimmedLen cB < cfg.min_content_length)
    (hskip : cfg.skip_words.any (fun w => skipMatch cB w) = false)
    (hsim : cosSimGE B A cfg.similarity_threshold = true) :
    (evaluate cfg (evaluate cfg cache cA A cls1).2 cB B cls2).1 =
      ⟨false, .DUPLICATE⟩ := by
  have hc := evaluate_accept_cache cfg cache cA A cls1 hacc
  have hmem : A ∈ (evaluate cfg cache cA A cls1).2 := by
    rw [hc]; exact mem_pushCache_self _ _ _ hmax
  have hany : ((evaluate cfg cache cA A cls1).2).any
      (fun e => cosSimGE B e cfg.similarity_threshold) = true :=
    List.any_eq_true.mpr ⟨A, hmem, hsim⟩
  rw [evaluate_dup_rule cfg ((evaluate cfg cache cA A cls1).2) cB B cls2
    hk hlen hskip hany]

/-- Witness for C3: embedding [1,0] is accepted on an empty cache; the
identical embedding is then rejected as a duplicate. -/
theorem evaluate_duplicate_witness :
    (evaluate ⟨9/10, 3/10, 10, [], [], 50⟩
        (evaluate ⟨9/10, 3/10, 10, [], [], 50⟩ [] "hello world" [1, 0]
          none).2
        "hello there!" [1, 0] none).1 = ⟨false, .DUPLICATE⟩ :=
  evaluate_duplicate _ _ _ _ _ _ _ _ (by decide) (by decide) (by decide)
    (by decide) (by decide) (by with_unfolding_all decide)

/-- Helper: pushing preserves the cache capacity bound. -/
theorem pushCache_length (maxN : Nat) (cache : List Emb) (e : Emb)
    (h : cache.length ≤ maxN) :
    (pushCache maxN cache e).length ≤ maxN := by
  simp only [pushCache]
  split
  · next hlt => simp at hlt ⊢; omega
  · next hge => simp at hge ⊢; omega

/-- Helper: a single `evaluate` call preserves the cache capacity bound. -/
theorem evaluate_cache_length (cfg : GateConfig) (cache : List Emb)
    (content : String) (embedding : Emb)
    (classification : Option Classification)
    (h : cache.length ≤ cfg.max_recent_embeddings) :
    (evaluate cfg cache content embedding classification).2.length ≤
      cfg.max_recent_embeddings := by
  rcases evaluate_cache_cases cfg cache content embedding classification
    with hc | hc
  · rw [hc]; exact h
  · rw [hc]; exact pushCache_length _ _ _ h

/-- One input to a gate evaluation: content, embedding, classification. -/
structure GateInput where
  content : String
  embedding : Emb
  classification : Option Classification

/-- Run a sequence of gate evaluations, threading the cache. -/
def evalSeq (cfg : GateConfig) : List Emb → List GateInput → List Emb
  | cache, [] => cache
  | cache, i :: is =>
      evalSeq cfg
        (evaluate cfg cache i.content i.embedding i.classification).2 is

/-- Helper: a sequence of evaluations preserves the capacity bound. -/
theorem evalSeq_length (cfg : GateConfig) (inputs : List GateInput) :
    ∀ cache : List Emb, cache.length ≤ cfg.max_recent_embeddings →
      (evalSeq cfg cache inputs).length ≤ cfg.max_recent_embeddings := by
  induction inputs with
  | nil => intro cache h; exact h
  | cons i is ih =>
    intro cache h
    exact ih _ (evaluate_cache_length cfg cache i.content i.embedding
      i.classification h)

/-- Claim C4: after every sequence of `evaluate` calls the cache holds at
most `max_recent_embeddings` entries, and an acceptance on a full cache
(of positive capacity) evicts exactly the oldest entry in FIFO order. -/
theorem gate_cache_bound_fifo (cfg : GateConfig) :
    (∀ inputs : List GateInput,
      (evalSeq cfg [] inputs).length ≤ cfg.max_recent_embeddings) ∧
    (∀ (cache : List Emb) (content : String) (embedding : Emb)
        (classification : Option Classification),
      cache.length = cfg.max_recent_embeddings →
      0 < cfg.max_recent_embeddings →
      (evaluate cfg cache content embedding classification).1.accept =
        true →
      (evaluate cfg cache content embedding classification).2 =
        cache.tail ++ [embedding]) := by
  constructor
  · intro inputs
    exact evalSeq_length cfg inputs [] (Nat.zero_le _)
  · intro cache content embedding classification hfull hpos hacc
    rw [evaluate_accept_cache cfg cache content embedding classification
      hacc]
    match cache, hfull with
    | [], hfull => simp at hfull; omega
    | y :: ys, hfull =>
      simp only [pushCache, List.cons_append, List.length_cons,
        List.length_append, List.length_singleton]
      have hlt : cfg.max_recent_embeddings < ys.length + 1 + 1 := by
        simp at hfull; omega
      rw [if_pos]
      · simp
      · simpa using hlt

/-- Witness for C4: with capacity 2, after accepting three mutually
dissimilar embeddings only the second and third remain, and an
acceptance on the full cache evicts the oldest entry. -/
theorem gate_cache_bound_fifo_witness :
    (evalSeq ⟨9/10, 3/10, 5, [], [], 2⟩ []
        [⟨"first memory", [1, 0, 0], none⟩,
          ⟨"second memory", [0, 1, 0], none⟩,
          ⟨"third memory", [0, 0, 1], none⟩]).length ≤ 2 ∧
      (evaluate ⟨9/10, 3/10, 5, [], [], 2⟩ [[1, 0, 0], [0, 1, 0]]
          "third memory" [0, 0, 1] none).2 =
        ([[1, 0, 0], [0, 1, 0]] : List Emb).tail ++ [[0, 0, 1]] ∧
      evalSeq ⟨9/10, 3/10, 5, [], [], 2⟩ []
          [⟨"first memory", [1, 0, 0], none⟩,
            ⟨"second memory", [0, 1, 0], none⟩,
            ⟨"third memory", [0, 0, 1], none⟩] =
        [[0, 1, 0], [0, 0, 1]] :=
  ⟨(gate_cache_bound_fifo _).1 _,
    (gate_cache_bound_fifo _).2 _ _ _ _ (by decide) (by decide)
      (by with_unfolding_all decide),
    by with_unfolding_all decide⟩

/-- Claim C5: every rejecting `evaluate` call leaves the recent-embedding
cache exactly as it was; only acceptances mutate it. -/
theorem evaluate_reject_frame (cfg : GateConfig) (cache : List Emb)
    (content : String) (embedding : Emb)
    (classification : Option Classification)
    (h : (evaluate cfg cache content embedding classification).1.accept =
      false) :
    (evaluate cfg cache content embedding classification).2 = cache := by
  by_cases h1 : cfg.keep_phrases.any (fun p => containsCI content p) = true
  · simp [evaluate, h1] at h
  · by_cases h2 : trimmedLen content < cfg.min_content_length
    · simp [evaluate, h1, h2]
    · by_cases h3 : cfg.skip_words.any (fun w => skipMatch content w) = true
      · simp [evaluate, h1, h2, h3]
      · by_cases h4 :
          cache.any (fun e =>
            cosSimGE embedding e cfg.similarity_threshold) = true
        · simp [evaluate, h1, h2, h3, h4]
        · match classification with
          | none => simp [evaluate, h1, h2, h3, h4] at h
          | some m =>
            by_cases h5 : maxConf m < cfg.confidence_threshold
            · simp [evaluate, h1, h2, h3, h4, h5]
            · simp [evaluate, h1, h2, h3, h4, h5] at h

/-- Witness for C5: a `TOO_SHORT` rejection leaves the empty cache
empty. -/
theorem evaluate_reject_frame_witness :
    (evaluate ⟨9/10, 3/10, 10, [], [], 50⟩ [[1, 0]] "hello" [1, 0]
      none).2 = [[1, 0]] :=
  evaluate_reject_frame _ _ _ _ _ (by decide)

/-- A search result: the stored record's identity paired with its
similarity score. -/
structure SearchResult where
  record : Nat
  score : ℚ
deriving DecidableEq

/-- A search query: text, number of results, similarity floor. -/
structure SearchQuery where
  query : String
  top_k : Int
  min_score : ℚ

/-- Insert a result into a score-descending list, before the first entry
of equal or lower score.  The inserted element precedes the list in
store order, so placing it before equal scores keeps store order on
ties. -/
def insertDesc (r : SearchResult) : List SearchResult → List SearchResult
  | [] => [r]
  | x :: xs =>
      if x.score ≤ r.score then r :: x :: xs else x :: insertDesc r xs

/-- Sort by score descending: sort the tail, then insert the head before
the tail entries of equal or lower score, so ties stay in store
order (stability proved by `sortByScoreDesc_filter`). -/
def sortByScoreDesc : List SearchResult → List SearchResult
  | [] => []
  | x :: xs => insertDesc x (sortByScoreDesc xs)

/-- Modelled from the spec (section 4.2): `MemoryOrchestrator.search_memory`,
absent from the visible sources.  `store` is the candidate sequence the
Vector Store returns, in store-provided order.  Returns empty when
`top_k` is not positive; otherwise filters by `min_score`, orders by
score descending (ties by store order) and truncates to `top_k`. -/
def search_memory (store : List SearchResult) (q : SearchQuery) :
    List SearchResult :=
  if q.top_k ≤ 0 then []
  else
    (sortByScoreDesc
        (store.filter (fun r => decide (q.min_score ≤ r.score)))).take
      q.top_k.toNat

/-- Helper: inserting permutes to consing. -/
theorem insertDesc_perm (r : SearchResult) (l : List SearchResult) :
    List.Perm (insertDesc r l) (r :: l) := by
  induction l with
  | nil => exact List.Perm.refl _
  | cons x xs ih =>
    simp only [insertDesc]
    split
    · exact List.Perm.refl _
    · exact (List.Perm.cons x ih).trans (List.Perm.swap r x xs)

/-- Helper: sorting is a permutation. -/
theorem sortByScoreDesc_perm (l : List SearchResult) :
    List.Perm (sortByScoreDesc l) l := by
  induction l with
  | nil => exact List.Perm.refl _
  | cons x xs ih =>
    exact (insertDesc_perm x (sortByScoreDesc xs)).trans
      (List.Perm.cons x ih)

/-- Helper: inserting preserves the score-descending pairwise order. -/
theorem insertDesc_pairwise (r : SearchResult) (l : List SearchResult)
    (h : l.Pairwise (fun a b => b.score ≤ a.score)) :
    (insertDesc r l).Pairwise (fun a b => b.score ≤ a.score) := by
  induction l with
  | nil => simp [insertDesc]
  | cons x xs ih =>
    rw [List.pairwise_cons] at h
    simp only [insertDesc]
    split
    · next hle =>
      rw [List.pairwise_cons]
      refine ⟨?_, List.pairwise_cons.mpr h⟩
      intro y hy
      rcases List.mem_cons.mp hy with hy | hy
      · exact hy ▸ hle
      · exact le_trans (h.1 y hy) hle
    · next hgt =>
      rw [List.pairwise_cons]
      refine ⟨?_, ih h.2⟩
      intro y hy
      rcases List.mem_cons.mp ((insertDesc_perm r xs).mem_iff.mp hy)
        with hy | hy
      · exact hy ▸ le_of_lt (not_le.mp hgt)
      · exact h.1 y hy

/-- Helper: inserting an element whose store position precedes the list
puts it exactly at the head of its score class; every other score class
is untouched.  Entries passed over have strictly higher score, so they
are never in the inserted element's class. -/
theorem insertDesc_filter (r : SearchResult) (s : ℚ) :
    ∀ l : List SearchResult,
      (insertDesc r l).filter (fun x => decide (x.score = s)) =
        if r.score = s then
          r :: l.filter (fun x => decide (x.score = s))
        else l.filter (fun x => decide (x.score = s))
  | [] => by
      by_cases hr : r.score = s <;> simp [insertDesc, hr]
  | x :: xs => by
      simp only [insertDesc]
      by_cases hc : x.score ≤ r.score
      · rw [if_pos hc]
        by_cases hr : r.score = s <;>
          by_cases hx : x.score = s <;>
            simp [List.filter_cons, hr, hx]
      · rw [if_neg hc]
        have hlt : r.score < x.score := not_le.mp hc
        by_cases hr : r.score = s
        · have hx : ¬ x.score = s := hr ▸ ne_of_gt hlt
          simp [List.filter_cons, hr, hx, insertDesc_filter r s xs]
        · by_cases hx : x.score = s <;>
            simp [List.filter_cons, hr, hx, insertDesc_filter r s xs]

/-- Helper: the sort is stable — each score class comes out in exactly
its incoming order. -/
theorem sortByScoreDesc_filter (s : ℚ) :
    ∀ l : List SearchResult,
      (sortByScoreDesc l).filter (fun x => decide (x.score = s)) =
        l.filter (fun x => decide (x.score = s))
  | [] => rfl
  | x :: xs => by
      simp only [sortByScoreDesc]
      rw [insertDesc_filter]
      by_cases hx : x.score = s <;>
        simp [hx, sortByScoreDesc_filter s xs]

/-- Helper: the sorted list is pairwise score-descending. -/
theorem sortByScoreDesc_pairwise (l : List SearchResult) :
    (sortByScoreDesc l).Pairwise (fun a b => b.score ≤ a.score) := by
  induction l with
  | nil => simp [sortByScoreDesc]
  | cons x xs ih => exact insertDesc_pairwise x _ ih

/-- Claim C6: `search_memory` returns the empty sequence when `top_k` is
not positive; otherwise every returned result has score at least
`min_score`, the results are ordered by score descending with ties kept
in store-provided order (each score class of the result is a
subsequence of the store's listing of that class), and at most `top_k`
results are returned. -/
theorem search_memory_spec (store : List SearchResult) (q : SearchQuery) :
    (q.top_k ≤ 0 → search_memory store q = []) ∧
      (∀ r ∈ search_memory store q, q.min_score ≤ r.score) ∧
      (search_memory store q).Pairwise (fun a b => b.score ≤ a.score) ∧
      (search_memory store q).length ≤ q.top_k.toNat ∧
      (∀ s : ℚ, List.Sublist
        ((search_memory store q).filter (fun r => decide (r.score = s)))
        (store.filter (fun r => decide (r.score = s)))) := by
  refine ⟨fun h => by simp [search_memory, h], ?_, ?_, ?_, ?_⟩
  · intro r hr
    by_cases h : q.top_k ≤ 0
    · simp [search_memory, h] at hr
    · simp only [search_memory, if_neg h] at hr
      have hr2 := (sortByScoreDesc_perm _).mem_iff.mp
        (List.take_subset _ _ hr)
      exact of_decide_eq_true (List.mem_filter.mp hr2).2
  · by_cases h : q.top_k ≤ 0
    · simp [search_memory, h]
    · simp only [search_memory, if_neg h]
      exact (sortByScoreDesc_pairwise _).sublist (List.take_sublist _ _)
  · by_cases h : q.top_k ≤ 0
    · simp [search_memory, h]
    · simp only [search_memory, if_neg h]
      exact List.length_take_le _ _
  · intro s
    by_cases h : q.top_k ≤ 0
    · simp [search_memory, h]
    · simp only [search_memory, if_neg h]
      have h1 : List.Sublist
          (((sortByScoreDesc
            (store.filter (fun r => decide (q.min_score ≤ r.score)))).take
              q.top_k.toNat).filter (fun r => decide (r.score = s)))
          ((sortByScoreDesc
            (store.filter (fun r => decide (q.min_score ≤ r.score)))).filter
              (fun r => decide (r.score = s))) :=
        (List.take_sublist _ _).filter _
      rw [sortByScoreDesc_filter] at h1
      exact h1.trans ((List.filter_sublist _).filter _)

/-- Witness for C6: a non-positive `top_k` yields no results; with
`top_k` 2 and `min_score` 1/2 a concrete store is filtered, ordered by
descending score, and bounded in length; and on a store with two results
tied at score 1/2 the tie comes out in store order. -/
theorem search_memory_spec_witness :
    search_memory [⟨1, 1/2⟩, ⟨2, 9/10⟩, ⟨3, 1/4⟩] ⟨"q", 0, 1/2⟩ = [] ∧
      (∀ r ∈ search_memory [⟨1, 1/2⟩, ⟨2, 9/10⟩, ⟨3, 1/4⟩]
          ⟨"q", 2, 1/2⟩, (1/2 : ℚ) ≤ r.score) ∧
      (search_memory [⟨1, 1/2⟩, ⟨2, 9/10⟩, ⟨3, 1/4⟩]
          ⟨"q", 2, 1/2⟩).length ≤ 2 ∧
      search_memory [⟨1, 1/2⟩, ⟨2, 9/10⟩, ⟨3, 1/4⟩] ⟨"q", 2, 1/2⟩ =
        [⟨2, 9/10⟩, ⟨1, 1/2⟩] ∧
      List.Sublist
        ((search_memory [⟨1, 1/2⟩, ⟨2, 1/2⟩, ⟨3, 1/4⟩]
          ⟨"q", 2, 1/2⟩).filter (fun r => decide (r.score = 1/2)))
        (([⟨1, 1/2⟩, ⟨2, 1/2⟩, ⟨3, 1/4⟩] :
          List SearchResult).filter (fun r => decide (r.score = 1/2))) ∧
      search_memory [⟨1, 1/2⟩, ⟨2, 1/2⟩, ⟨3, 1/4⟩] ⟨"q", 2, 1/2⟩ =
        [⟨1, 1/2⟩, ⟨2, 1/2⟩] :=
  ⟨(search_memory_spec _ _).1 (by decide),
    (search_memory_spec [⟨1, 1/2⟩, ⟨2, 9/10⟩, ⟨3, 1/4⟩] ⟨"q", 2, 1/2⟩).2.1,
    (search_memory_spec [⟨1, 1/2⟩, ⟨2, 9/10⟩, ⟨3, 1/4⟩]
      ⟨"q", 2, 1/2⟩).2.2.2.1,
    by with_unfolding_all decide,
    (search_memory_spec [⟨1, 1/2⟩, ⟨2, 1/2⟩, ⟨3, 1/4⟩]
      ⟨"q", 2, 1/2⟩).2.2.2.2 (1/2),
    by with_unfolding_all decide⟩

/-- Result of one `add_memory` call: the assigned identifier (or absent)
together with which collaborators were invoked and the gate cache after
the call. -/
structure AddMemoryResult where
  stored_id : Option Nat
  embedCalled : Bool
  classifyCalled : Bool
  gateCalled : Bool
  storeCalled : Bool
  cache : List Emb
deriving DecidableEq

/-- Modelled from the spec (section 4.2): `MemoryOrchestrator.add_memory`,
absent from the visible sources.  Blank content is a no-op returning
absent; otherwise the content is embedded, classified when a classifier
is configured, gated, and persisted only on acceptance.  The trace
records which collaborators were called. -/
def add_memory (cfg : GateConfig) (embedF : String → Emb)
    (classifierF : Option (String → Classification))
    (storeF : String → Emb → Nat) (cache : List Emb) (content : String) :
    AddMemoryResult :=
  if trimmedLen content = 0 then ⟨none, false, false, false, false, cache⟩
  else
    let embedding := embedF content
    let classification := classifierF.map (fun f => f content)
    let r := evaluate cfg cache content embedding classification
    if r.1.accept then
      ⟨some (storeF content embedding), true, classifierF.isSome, true,
        true, r.2⟩
    else
      ⟨none, true, classifierF.isSome, true, false, r.2⟩

/-- Claim C7: blank content makes `add_memory` a no-op that returns
absent without calling the embedder, classifier, gate or store; and a
gate rejection returns absent with no storage call. -/
theorem add_memory_blank_reject (cfg : GateConfig) (embedF : String → Emb)
    (classifierF : Option (String → Classification))
    (storeF : String → Emb → Nat) (cache : List Emb) (content : String) :
    (trimmedLen content = 0 →
      add_memory cfg embedF classifierF storeF cache content =
        ⟨none, false, false, false, false, cache⟩) ∧
      (trimmedLen content ≠ 0 →
        (evaluate cfg cache content (embedF content)
            (classifierF.map (fun f => f content))).1.accept = false →
        (add_memory cfg embedF classifierF storeF cache content).stored_id
            = none ∧
          (add_memory cfg embedF classifierF storeF cache
            content).storeCalled = false) := by
  constructor
  · intro h
    simp [add_memory, h]
  · intro h hrej
    simp [add_memory, h, hrej]

/-- Witness for C7: whitespace-only content is a complete no-op, and a
too-short rejection stores nothing. -/
theorem add_memory_blank_reject_witness :
    add_memory ⟨9/10, 3/10, 10, [], [], 50⟩ (fun _ => [1, 0]) none
        (fun _ _ => 42) [] "   " =
      ⟨none, false, false, false, false, []⟩ ∧
      (add_memory ⟨9/10, 3/10, 10, [], [], 50⟩ (fun _ => [1, 0]) none
          (fun _ _ => 42) [] "hi").stored_id = none ∧
      (add_memory ⟨9/10, 3/10, 10, [], [], 50⟩ (fun _ => [1, 0]) none
          (fun _ _ => 42) [] "hi").storeCalled = false :=
  ⟨(add_memory_blank_reject _ _ _ _ _ _).1 (by decide),
    ((add_memory_blank_reject _ _ _ _ _ _).2 (by decide) (by decide)).1,
    ((add_memory_blank_reject _ _ _ _ _ _).2 (by decide) (by decide)).2⟩

/-- The Python exception kinds the factory code distinguishes
(`src/memuri/factory.py`). -/
inductive PyError where
  | valueError (msg : String)
  | importError (msg : String)
  | attributeError (msg : String)
deriving DecidableEq, Repr

/-- A provider implementation as resolved by `importlib` plus `getattr`:
its qualified name and whether it subclasses the factory's base
interface. -/
structure ProviderImpl where
  name : String
  subclassOfBase : Bool
deriving DecidableEq, Repr

/-- Lookup in an association list by string key (Python `dict` lookup,
first binding wins). -/
def dictGet {α : Type} : List (String × α) → String → Option α
  | [], _ => none
  | (k0, v0) :: rest, k => if k0 = k then some v0 else dictGet rest k

/-- Split a character list around its last '.', if any. -/
def splitLastDot : List Char → Option (List Char × List Char)
  | [] => none
  | c :: cs =>
      match splitLastDot cs with
      | some (pre, suf) => some (c :: pre, suf)
      | none => if c = '.' then some ([], cs) else none

/-- Model of `module_path.rsplit(".", 1)` in `ProviderFactory.get_provider_class`.
A path without a dot is unreachable for the configured provider maps
(Python would raise on tuple unpacking there). -/
def rsplitDot (s : String) : String × String :=
  match splitLastDot s.data with
  | some (pre, suf) => (⟨pre⟩, ⟨suf⟩)
  | none => (s, s)

/-- The import machinery surrounding the factory: `importlib` plus
`getattr` (keyed by module name and class name), the `issubclass` test
against the factory's base class, and that base class's name. -/
structure FactoryEnv where
  imports : String → String → Except PyError ProviderImpl
  issubclassBase : ProviderImpl → Bool
  baseName : String

/-- Embedded from `ProviderFactory.get_provider_class`
(`src/memuri/factory.py` lines 57-92): unsupported names raise
`ValueError` listing the supported providers; `ImportError` and
`AttributeError` during loading are wrapped in `ValueError`; an
implementation that does not subclass the base class raises
`ValueError`, uncaught by the import handler. -/
def get_provider_class (provider_map : List (String × String))
    (env : FactoryEnv) (provider_name : String) :
    Except PyError ProviderImpl :=
  match dictGet provider_map provider_name with
  | none =>
      .error (.valueError ("Unsupported provider: " ++ provider_name ++
        ". Supported: " ++
        String.intercalate ", " (provider_map.map Prod.fst)))
  | some module_path =>
      let mc := rsplitDot module_path
      match env.imports mc.1 mc.2 with
      | .ok provider_class =>
          if env.issubclassBase provider_class then .ok provider_class
          else
            .error (.valueError ("Provider " ++ provider_name ++
              " does not implement " ++ env.baseName))
      | .error (.importError m) =>
          .error (.valueError ("Failed to load provider " ++
            provider_name ++ ": " ++ m))
      | .error (.attributeError m) =>
          .error (.valueError ("Failed to load provider " ++
            provider_name ++ ": " ++ m))
      | .error e => .error e

/-- A factory `create` call: resolve the provider class, then construct
an instance from it.  Construction is the external `construct`
function; it runs only on a successfully resolved class. -/
def factory_create (provider_map : List (String × String))
    (env : FactoryEnv) (construct : ProviderImpl → Nat)
    (provider_name : String) : Except PyError Nat :=
  match get_provider_class provider_map env provider_name with
  | .error e => .error e
  | .ok c => .ok (construct c)

/-- Map `EmbedderFactory.provider_map` from `src/memuri/factory.py`. -/
def embedderProviderMap : List (String × String) :=
  [("openai", "memuri.services.embedding.OpenAIEmbeddingService"),
    ("google", "memuri.services.embedding.GoogleEmbeddingService"),
    ("sentence_transformers",
      "memuri.services.embedding.SentenceTransformersEmbeddingService")]

/-- Map `VectorStoreFactory.provider_map` from `src/memuri/factory.py`. -/
def vectorStoreProviderMap : List (String × String) :=
  [("pgvector", "memuri.adapters.vectorstore.pgvector.PgVectorStore"),
    ("milvus", "memuri.adapters.vectorstore.milvus.MilvusVectorStore"),
    ("qdrant", "memuri.adapters.vectorstore.qdrant.QdrantVectorStore"),
    ("redis_vector",
      "memuri.adapters.vectorstore.redis_vector.RedisVectorStore")]

/-- Claim C8: for every provider name not in the provider map,
`get_provider_class` — and hence every factory create call — raises a
`ValueError` whose message lists the supported providers, independently
of the import machinery and before any instance is constructed. -/
theorem get_provider_class_unsupported
    (provider_map : List (String × String)) (env : FactoryEnv)
    (construct : ProviderImpl → Nat) (provider_name : String)
    (h : dictGet provider_map provider_name = none) :
    get_provider_class provider_map env provider_name =
        .error (.valueError ("Unsupported provider: " ++ provider_name ++
          ". Supported: " ++
          String.intercalate ", " (provider_map.map Prod.fst))) ∧
      factory_create provider_map env construct provider_name =
        .error (.valueError ("Unsupported provider: " ++ provider_name ++
          ". Supported: " ++
          String.intercalate ", " (provider_map.map Prod.fst))) := by
  constructor
  · simp [ get_provider_class, h]
  · simp [factory_create, get_provider_class, h]

/-- Witness for C8: the unsupported name "cohere" against the embedder
factory map yields the ValueError listing openai, google and
sentence_transformers, whatever the import environment does. -/
theorem get_provider_class_unsupported_witness :
    ( get_provider_class embedderProviderMap
        ⟨fun _ _ => .error (.importError "boom"), fun _ => true,
          "EmbeddingService"⟩ "cohere" =
      .error (.valueError ("Unsupported provider: " ++ "cohere" ++
        ". Supported: " ++
        String.intercalate ", " (embedderProviderMap.map Prod.fst)))) ∧
      String.intercalate ", " (embedderProviderMap.map Prod.fst) =
        "openai, google, sentence_transformers" :=
  ⟨( get_provider_class_unsupported embedderProviderMap _ (fun _ => 0) _
      (by decide)).1,
    by decide⟩

/-- Claim C9: for every supported provider name whose implementation
fails to load with `ImportError` or `AttributeError`,
`get_provider_class` raises a `ValueError` wrapping the load failure —
the same exception type as for an unsupported name. -/
theorem get_provider_class_load_failure
    (provider_map : List (String × String)) (env : FactoryEnv)
    (provider_name module_path m : String)
    (hfind : dictGet provider_map provider_name = some module_path)
    (hload :
      env.imports (rsplitDot module_path).1 (rsplitDot module_path).2 =
          .error (.importError m) ∨
        env.imports (rsplitDot module_path).1 (rsplitDot module_path).2 =
          .error (.attributeError m)) :
    get_provider_class provider_map env provider_name =
      .error (.valueError ("Failed to load provider " ++ provider_name ++
        ": " ++ m)) := by
  rcases hload with hl | hl <;>
    simp [ get_provider_class, hfind, hl]

/-- Witness for C9: the supported name "openai" whose module import fails
surfaces as a ValueError wrapping the message. -/
theorem get_provider_class_load_failure_witness :
    get_provider_class embedderProviderMap
        ⟨fun _ _ =>
            .error (.importError "No module named memuri.services.embedding"),
          fun _ => true, "EmbeddingService"⟩ "openai" =
      .error (.valueError ("Failed to load provider " ++ "openai" ++
        ": " ++ "No module named memuri.services.embedding")) :=
  get_provider_class_load_failure embedderProviderMap _ "openai"
    "memuri.services.embedding.OpenAIEmbeddingService"
    "No module named memuri.services.embedding" (by decide) (Or.inl rfl)

/-- A Python dict with string keys and values, as used for
`model_kwargs`. -/
abbrev PyDict := List (String × String)

/-- A settings field value: a scalar or a nested dict. -/
inductive PyValue where
  | scalar (s : String)
  | dict (d : PyDict)
deriving DecidableEq, Repr

/-- Model of the pydantic `EmbeddingSettings` object: its named fields
(the form `settings.dict()` returns). -/
structure EmbeddingSettings where
  fields : List (String × PyValue)
deriving DecidableEq

/-- Python `hasattr(settings, key)` for the modelled settings object. -/
def hasattrS (s : EmbeddingSettings) (k : String) : Bool :=
  (dictGet s.fields k).isSome

/-- Value of `settings.model_kwargs`: the dict stored under the `model_kwargs`
field (empty when absent or not a dict, modelling Python falsiness). -/
def model_kwargsOf (s : EmbeddingSettings) : PyDict :=
  match dictGet s.fields "model_kwargs" with
  | some (.dict d) => d
  | _ => []

/-- The dict carried by a value (empty for scalars). -/
def valueDict : PyValue → PyDict
  | .scalar _ => []
  | .dict d => d

/-- Python dict assignment `d[key] = value`: replace in place, append
when the key is new. -/
def dictSet {α : Type} : List (String × α) → String → α → List (String × α)
  | [], k, v => [(k, v)]
  | (k0, v0) :: rest, k, v =>
      if k0 = k then (k, v) :: rest else (k0, v0) :: dictSet rest k v

/-- Python `{**old, **upd}`: entries of `old` updated in place by `upd`,
then the new keys of `upd` appended in order. -/
def dictMerge (old upd : PyDict) : PyDict :=
  (old.map (fun p =>
    match dictGet upd p.1 with
    | some v => (p.1, v)
    | none => p)) ++
    upd.filter (fun p => (dictGet old p.1).isNone)

/-- The kwargs-override loop of `EmbedderFactory.create`
(`src/memuri/factory.py` lines 130-135): start from `settings.dict()` and
set each kwarg whose name is an attribute of the settings. -/
def foldlStep (settings : EmbeddingSettings)
    (kwargs : List (String × PyValue)) : List (String × PyValue) :=
  kwargs.foldl
    (fun d kv => if hasattrS settings kv.1 then dictSet d kv.1 kv.2 else d)
    settings.fields

/-- Embedded from `EmbedderFactory.create` (`src/memuri/factory.py`
lines 127-145): with kwargs present, build the updated copy of the
settings — apply attribute-named kwargs, then overwrite `model_kwargs`
with the merge of the existing mapping and the supplied one when both
are present and the existing mapping is truthy — and recreate the
settings from it.  Without kwargs the settings object is returned
as is. -/
def applyKwargs (settings : EmbeddingSettings)
    (kwargs : List (String × PyValue)) : EmbeddingSettings :=
  if kwargs.isEmpty then settings
  else
    let settings_dict := foldlStep settings kwargs
    ⟨match dictGet kwargs "model_kwargs" with
      | some v =>
          if model_kwargsOf settings = [] then settings_dict
          else
            dictSet settings_dict "model_kwargs"
              (.dict (dictMerge (model_kwargsOf settings) (valueDict v)))
      | none => settings_dict⟩

/-- Helper: a key is found exactly when it is among the stored keys. -/
theorem dictGet_isSome_iff {α : Type} (k : String) :
    ∀ d : List (String × α),
      (dictGet d k).isSome = true ↔ k ∈ d.map Prod.fst
  | [] => by simp [dictGet]
  | (k0, v0) :: rest => by
      by_cases h : k0 = k
      · subst h; simp [dictGet]
      · simp [dictGet, h, dictGet_isSome_iff k rest, Ne.symm h]

/-- Helper: a key not among the stored keys is not found. -/
theorem dictGet_eq_none {α : Type} (k : String) (d : List (String × α))
    (h : k ∉ d.map Prod.fst) : dictGet d k = none := by
  rcases ho : dictGet d k with _ | v
  · rfl
  · exact absurd ((dictGet_isSome_iff k d).mp (by simp [ho])) h

/-- Helper: setting a key makes it found with the new value. -/
theorem dictSet_get_self {α : Type} (k : String) (v : α) :
    ∀ d : List (String × α), dictGet (dictSet d k v) k = some v
  | [] => by simp [dictGet, dictSet]
  | (k0, v0) :: rest => by
      by_cases h : k0 = k
      · subst h; simp [dictGet, dictSet]
      · simp [dictGet, dictSet, h, dictSet_get_self k v rest]

/-- Helper: setting a key leaves every other key unchanged. -/
theorem dictSet_get_other {α : Type} (k : String) (v : α) (k2 : String)
    (h : k2 ≠ k) :
    ∀ d : List (String × α), dictGet (dictSet d k v) k2 = dictGet d k2
  | [] => by simp [dictGet, dictSet, Ne.symm h]
  | (k0, v0) :: rest => by
      by_cases h0 : k0 = k
      · subst h0; simp [dictGet, dictSet, Ne.symm h]
      · simp [dictGet, dictSet, h0, dictSet_get_other k v k2 h rest]

/-- Helper: setting an existing key preserves the key list. -/
theorem dictSet_keys {α : Type} (k : String) (v : α) :
    ∀ d : List (String × α), (dictGet d k).isSome = true →
      (dictSet d k v).map Prod.fst = d.map Prod.fst
  | [], h => by simp [dictGet] at h
  | (k0, v0) :: rest, h => by
      by_cases h0 : k0 = k
      · subst h0; simp [dictSet]
      · have h' : (dictGet rest k).isSome = true := by
          simpa [dictGet, h0] using h
        simp [dictSet, h0, dictSet_keys k v rest h']

/-- Helper: one override step leaves every key other than the kwarg's
unchanged. -/
theorem step_get_other (settings : EmbeddingSettings)
    (d : List (String × PyValue)) (k0 : String) (v0 : PyValue)
    (k : String) (h : k ≠ k0) :
    dictGet
        (if hasattrS settings k0 then dictSet d k0 v0 else d) k =
      dictGet d k := by
  by_cases hha : hasattrS settings k0 = true
  · simp [hha, dictSet_get_other k0 v0 k h d]
  · simp [hha]

/-- Helper: the override loop does not touch keys absent from the
kwargs. -/
theorem foldlStep_get_none (settings : EmbeddingSettings) :
    ∀ (rest : List (String × PyValue)) (d : List (String × PyValue))
      (k : String), dictGet rest k = none →
      dictGet
          (rest.foldl
            (fun d kv =>
              if hasattrS settings kv.1 then dictSet d kv.1 kv.2 else d)
            d) k =
        dictGet d k
  | [], d, k, _ => rfl
  | (k0, v0) :: rs, d, k, h => by
      have hne : k0 ≠ k := by
        intro he; simp [dictGet, he] at h
      have hrs : dictGet rs k = none := by
        simpa [dictGet, hne] using h
      simp only [List.foldl_cons]
      rw [foldlStep_get_none settings rs _ k hrs]
      exact step_get_other settings d k0 v0 k (Ne.symm hne)

/-- Helper: a kwarg naming a settings attribute ends up stored with the
supplied value (keys unique in the kwargs). -/
theorem foldlStep_get_set (settings : EmbeddingSettings) :
    ∀ (rest : List (String × PyValue)) (d : List (String × PyValue))
      (k : String) (v : PyValue), (rest.map Prod.fst).Nodup →
      dictGet rest k = some v → hasattrS settings k = true →
      dictGet
          (rest.foldl
            (fun d kv =>
              if hasattrS settings kv.1 then dictSet d kv.1 kv.2 else d)
            d) k =
        some v
  | [], d, k, v, _, h, _ => by simp [dictGet] at h
  | (k0, v0) :: rs, d, k, v, hnd, h, hha => by
      rcases List.nodup_cons.mp hnd with ⟨hk0, hnd2⟩
      by_cases he : k0 = k
      · subst he
        have hv : v0 = v := by simpa [dictGet] using h
        subst hv
        have hnone : dictGet rs k0 = none :=
          dictGet_eq_none k0 rs hk0
        simp only [List.foldl_cons]
        rw [foldlStep_get_none settings rs _ k0 hnone]
        simp only [hha, if_true]
        exact dictSet_get_self k0 v0 d
      · have h2 : dictGet rs k = some v := by
          simpa [dictGet, he] using h
        simp only [List.foldl_cons]
        exact foldlStep_get_set settings rs _ k v hnd2 h2 hha

/-- Helper: a kwarg not naming a settings attribute is silently
ignored. -/
theorem foldlStep_get_noattr (settings : EmbeddingSettings) :
    ∀ (rest : List (String × PyValue)) (d : List (String × PyValue))
      (k : String) (v : PyValue), (rest.map Prod.fst).Nodup →
      dictGet rest k = some v → hasattrS settings k = false →
      dictGet
          (rest.foldl
            (fun d kv =>
              if hasattrS settings kv.1 then dictSet d kv.1 kv.2 else d)
            d) k =
        dictGet d k
  | [], d, k, v, _, h, _ => by simp [dictGet] at h
  | (k0, v0) :: rs, d, k, v, hnd, h, hha => by
      rcases List.nodup_cons.mp hnd with ⟨hk0, hnd2⟩
      by_cases he : k0 = k
      · subst he
        have hnone : dictGet rs k0 = none :=
          dictGet_eq_none k0 rs hk0
        simp only [List.foldl_cons]
        rw [foldlStep_get_none settings rs _ k0 hnone]
        simp [hha]
      · have h2 : dictGet rs k = some v := by
          simpa [dictGet, he] using h
        simp only [List.foldl_cons]
        rw [foldlStep_get_noattr settings rs _ k v hnd2 h2 hha]
        exact step_get_other settings d k0 v0 k (Ne.symm he)

/-- Helper: the override loop preserves the field-name list. -/
theorem foldlStep_keys (settings : EmbeddingSettings) :
    ∀ (rest : List (String × PyValue)) (d : List (String × PyValue)),
      d.map Prod.fst = settings.fields.map Prod.fst →
      (rest.foldl
          (fun d kv =>
            if hasattrS settings kv.1 then dictSet d kv.1 kv.2 else d)
          d).map Prod.fst =
        settings.fields.map Prod.fst
  | [], d, h => h
  | (k0, v0) :: rs, d, h => by
      simp only [List.foldl_cons]
      apply foldlStep_keys settings rs
      by_cases hha : hasattrS settings k0 = true
      · have hsome : (dictGet d k0).isSome = true := by
          rw [dictGet_isSome_iff, h, ← dictGet_isSome_iff]
          exact hha
        simp [hha, dictSet_keys k0 v0 d hsome, h]
      · simp [hha, h]

/-- Helper: a truthy `settings.model_kwargs` means the field exists. -/
theorem model_kwargs_isSome (settings : EmbeddingSettings)
    (h : model_kwargsOf settings ≠ []) :
    (dictGet settings.fields "model_kwargs").isSome = true := by
  unfold model_kwargsOf at h
  rcases ho : dictGet settings.fields "model_kwargs" with _ | v
  · rw [ho] at h; simp at h
  · simp [ho]

/-- Helper: without a `model_kwargs` attribute the mapping is empty. -/
theorem model_kwargs_empty_of_noattr (settings : EmbeddingSettings)
    (h : hasattrS settings "model_kwargs" = false) :
    model_kwargsOf settings = [] := by
  unfold hasattrS at h
  unfold model_kwargsOf
  rcases ho : dictGet settings.fields "model_kwargs" with _ | v
  · rfl
  · rw [ho] at h; simp at h

/-- Helper: `foldlStep` preserves the settings field names. -/
theorem foldlStep_keys2 (settings : EmbeddingSettings)
    (kwargs : List (String × PyValue)) :
    (foldlStep settings kwargs).map Prod.fst =
      settings.fields.map Prod.fst :=
  foldlStep_keys settings kwargs settings.fields rfl

/-- Helper: `foldlStep` leaves non-kwarg keys at their settings value. -/
theorem foldlStep_get_none2 (settings : EmbeddingSettings)
    (kwargs : List (String × PyValue)) (k : String)
    (h : dictGet kwargs k = none) :
    dictGet (foldlStep settings kwargs) k = dictGet settings.fields k :=
  foldlStep_get_none settings kwargs settings.fields k h

/-- Helper: `foldlStep` stores attribute-named kwargs. -/
theorem foldlStep_get_set2 (settings : EmbeddingSettings)
    (kwargs : List (String × PyValue)) (k : String) (v : PyValue)
    (hnd : (kwargs.map Prod.fst).Nodup) (h : dictGet kwargs k = some v)
    (hha : hasattrS settings k = true) :
    dictGet (foldlStep settings kwargs) k = some v :=
  foldlStep_get_set settings kwargs settings.fields k v hnd h hha

/-- Helper: `foldlStep` ignores kwargs that are not attributes. -/
theorem foldlStep_get_noattr2 (settings : EmbeddingSettings)
    (kwargs : List (String × PyValue)) (k : String) (v : PyValue)
    (hnd : (kwargs.map Prod.fst).Nodup) (h : dictGet kwargs k = some v)
    (hha : hasattrS settings k = false) :
    dictGet (foldlStep settings kwargs) k = dictGet settings.fields k :=
  foldlStep_get_noattr settings kwargs settings.fields k v hnd h hha

/-- Helper: the fields produced by `applyKwargs` on nonempty kwargs. -/
theorem applyKwargs_fields (settings : EmbeddingSettings)
    (kwargs : List (String × PyValue)) (h : kwargs.isEmpty = false) :
    (applyKwargs settings kwargs).fields =
      match dictGet kwargs "model_kwargs" with
      | some v =>
          if model_kwargsOf settings = [] then foldlStep settings kwargs
          else
            dictSet (foldlStep settings kwargs) "model_kwargs"
              (.dict (dictMerge (model_kwargsOf settings) (valueDict v)))
      | none => foldlStep settings kwargs := by
  simp [applyKwargs, h]

/-- Claim C10: `EmbedderFactory.create` treats the incoming settings as
read-only: the result of the kwargs step has exactly the original field
names, keys absent from the kwargs keep their values, kwargs that are
not attributes of the settings are silently ignored, attribute-named
kwargs are applied, and `model_kwargs` is merged into the existing
mapping rather than replaced when both are present and nonempty. -/
theorem embedder_create_settings_spec (settings : EmbeddingSettings)
    (kwargs : List (String × PyValue))
    (hnd : (kwargs.map Prod.fst).Nodup) :
    ((applyKwargs settings kwargs).fields.map Prod.fst =
        settings.fields.map Prod.fst) ∧
      (∀ k, dictGet kwargs k = none →
        dictGet (applyKwargs settings kwargs).fields k =
          dictGet settings.fields k) ∧
      (∀ k v, dictGet kwargs k = some v → hasattrS settings k = false →
        dictGet (applyKwargs settings kwargs).fields k =
          dictGet settings.fields k) ∧
      (∀ k v, dictGet kwargs k = some v → hasattrS settings k = true →
        k ≠ "model_kwargs" →
        dictGet (applyKwargs settings kwargs).fields k = some v) ∧
      (∀ kd, dictGet kwargs "model_kwargs" = some (.dict kd) →
        model_kwargsOf settings ≠ [] →
        dictGet (applyKwargs settings kwargs).fields "model_kwargs" =
          some (.dict (dictMerge (model_kwargsOf settings) kd))) := by
  by_cases hkE : kwargs = []
  · subst hkE
    have hfe : (applyKwargs settings
        ([] : List (String × PyValue))).fields = settings.fields := rfl
    exact ⟨by rw [hfe], fun k _ => by rw [hfe],
      fun k v h => by simp [dictGet] at h,
      fun k v h => by simp [dictGet] at h,
      fun kd h => by simp [dictGet] at h⟩
  · have hbe : kwargs.isEmpty = false := by
      cases kwargs with
      | nil => exact absurd rfl hkE
      | cons a l => rfl
    have hsomeMk : model_kwargsOf settings ≠ [] →
        (dictGet (foldlStep settings kwargs) "model_kwargs").isSome =
          true := by
      intro hmko
      rw [dictGet_isSome_iff, foldlStep_keys2, ← dictGet_isSome_iff]
      exact model_kwargs_isSome settings hmko
    refine ⟨?_, ?_, ?_, ?_, ?_⟩
    · rw [applyKwargs_fields settings kwargs hbe]
      rcases hmk : dictGet kwargs "model_kwargs" with _ | mv
      · simp only [hmk]
        exact foldlStep_keys2 settings kwargs
      · simp only [hmk]
        by_cases hmko : model_kwargsOf settings = []
        · simp only [if_pos hmko]
          exact foldlStep_keys2 settings kwargs
        · simp only [if_neg hmko]
          rw [dictSet_keys _ _ _ (hsomeMk hmko)]
          exact foldlStep_keys2 settings kwargs
    · intro k hknone
      rw [applyKwargs_fields settings kwargs hbe]
      rcases hmk : dictGet kwargs "model_kwargs" with _ | mv
      · simp only [hmk]
        exact foldlStep_get_none2 settings kwargs k hknone
      · have hkne : k ≠ "model_kwargs" := by
          intro he; rw [he, hmk] at hknone; cases hknone
        simp only [hmk]
        by_cases hmko : model_kwargsOf settings = []
        · simp only [if_pos hmko]
          exact foldlStep_get_none2 settings kwargs k hknone
        · simp only [if_neg hmko]
          rw [dictSet_get_other _ _ _ hkne]
          exact foldlStep_get_none2 settings kwargs k hknone
    · intro k v hkv hha
      rw [applyKwargs_fields settings kwargs hbe]
      rcases hmk : dictGet kwargs "model_kwargs" with _ | mv
      · simp only [hmk]
        exact foldlStep_get_noattr2 settings kwargs k v hnd hkv hha
      · by_cases hkne : k = "model_kwargs"
        · subst hkne
          have hmko : model_kwargsOf settings = [] :=
            model_kwargs_empty_of_noattr settings hha
          simp only [hmk, if_pos hmko]
          exact foldlStep_get_noattr2 settings kwargs _ v hnd hkv hha
        · simp only [hmk]
          by_cases hmko : model_kwargsOf settings = []
          · simp only [if_pos hmko]
            exact foldlStep_get_noattr2 settings kwargs k v hnd hkv hha
          · simp only [if_neg hmko]
            rw [dictSet_get_other _ _ _ hkne]
            exact foldlStep_get_noattr2 settings kwargs k v hnd hkv hha
    · intro k v hkv hha hkne
      rw [applyKwargs_fields settings kwargs hbe]
      rcases hmk : dictGet kwargs "model_kwargs" with _ | mv
      · simp only [hmk]
        exact foldlStep_get_set2 settings kwargs k v hnd hkv hha
      · simp only [hmk]
        by_cases hmko : model_kwargsOf settings = []
        · simp only [if_pos hmko]
          exact foldlStep_get_set2 settings kwargs k v hnd hkv hha
        · simp only [if_neg hmko]
          rw [dictSet_get_other _ _ _ hkne]
          exact foldlStep_get_set2 settings kwargs k v hnd hkv hha
    · intro kd hmk hmko
      rw [applyKwargs_fields settings kwargs hbe]
      simp only [hmk, if_neg hmko]
      rw [dictSet_get_self]
      rfl

/-- Witness for C10: a concrete settings object with provider,
model_name and model_kwargs fields; kwargs override model_name, a
foreign key is ignored, and model_kwargs is merged, not replaced. -/
theorem embedder_create_settings_spec_witness :
    ((applyKwargs
        ⟨[("provider", .scalar "openai"), ("model_name", .scalar "ada"),
          ("model_kwargs", .dict [("device", "cpu")])]⟩
        [("model_name", .scalar "3-large"), ("unknown_key", .scalar "x"),
          ("model_kwargs", .dict [("batch", "8")])]).fields.map Prod.fst =
      ["provider", "model_name", "model_kwargs"]) ∧
      dictGet (applyKwargs
        ⟨[("provider", .scalar "openai"), ("model_name", .scalar "ada"),
          ("model_kwargs", .dict [("device", "cpu")])]⟩
        [("model_name", .scalar "3-large"), ("unknown_key", .scalar "x"),
          ("model_kwargs", .dict [("batch", "8")])]).fields "provider" =
        some (.scalar "openai") ∧
      dictGet (applyKwargs
        ⟨[("provider", .scalar "openai"), ("model_name", .scalar "ada"),
          ("model_kwargs", .dict [("device", "cpu")])]⟩
        [("model_name", .scalar "3-large"), ("unknown_key", .scalar "x"),
          ("model_kwargs", .dict [("batch", "8")])]).fields "unknown_key" =
        none ∧
      dictGet (applyKwargs
        ⟨[("provider", .scalar "openai"), ("model_name", .scalar "ada"),
          ("model_kwargs", .dict [("device", "cpu")])]⟩
        [("model_name", .scalar "3-large"), ("unknown_key", .scalar "x"),
          ("model_kwargs", .dict [("batch", "8")])]).fields "model_name" =
        some (.scalar "3-large") ∧
      dictGet (applyKwargs
        ⟨[("provider", .scalar "openai"), ("model_name", .scalar "ada"),
          ("model_kwargs", .dict [("device", "cpu")])]⟩
        [("model_name", .scalar "3-large"), ("unknown_key", .scalar "x"),
          ("model_kwargs", .dict [("batch", "8")])]).fields "model_kwargs" =
        some (.dict [("device", "cpu"), ("batch", "8")]) := by
  have hmain := embedder_create_settings_spec
    ⟨[("provider", .scalar "openai"), ("model_name", .scalar "ada"),
      ("model_kwargs", .dict [("device", "cpu")])]⟩
    [("model_name", .scalar "3-large"), ("unknown_key", .scalar "x"),
      ("model_kwargs", .dict [("batch", "8")])] (by decide)
  refine ⟨?_, ?_, ?_, ?_, ?_⟩
  · rw [hmain.1]; decide
  · rw [hmain.2.1 "provider" (by decide)]; decide
  · rw [hmain.2.2.1 "unknown_key" (.scalar "x") (by decide) (by decide)]
    decide
  · exact hmain.2.2.2.1 "model_name" (.scalar "3-large") (by decide)
      (by decide) (by decide)
  · rw [hmain.2.2.2.2 [("batch", "8")] (by decide) (by decide)]
    decide

